import Mathlib

/-!
Verification of the seo-sitemap-checker engine against its specification.

The JavaScript sources (`sitemap.js`, `soft404.js`) are shallowly embedded:
pure classification logic becomes Lean functions, HTTP traffic becomes
explicit data (an `HttpResponse` per request outcome), and the WHATWG URL
parser used through `new URL(url, base)` is modelled for the http(s) URLs
the scripts handle (scheme `://` host, path, with query and fragment
stripped from `pathname`; dot segments are not normalized, which none of
the verified properties depend on).  String primitives are implemented
over `List Char` so that every definition evaluates by kernel reduction.
-/

namespace SitemapChecker

/-- Check whether `pat` is a prefix of `s` (character lists). -/
def charsHaveStart : List Char → List Char → Bool
  | _, [] => true
  | [], _ :: _ => false
  | c :: cs, d :: ds => c = d && charsHaveStart cs ds

/-- Check whether `pat` occurs contiguously in `s` (character lists). -/
def charsContain (s pat : List Char) : Bool :=
  match s with
  | [] => pat.isEmpty
  | _ :: rest => charsHaveStart s pat || charsContain rest pat

/-- Substring test, modelling JavaScript `String.prototype.includes`. -/
def strContains (s pat : String) : Bool :=
  charsContain s.data pat.data

/-- Split around the first occurrence of `pat`, returning the characters
before and after it; `none` when `pat` does not occur. -/
def splitFirst (pat : List Char) : List Char → Option (List Char × List Char)
  | [] => none
  | c :: rest =>
    if charsHaveStart (c :: rest) pat then some ([], (c :: rest).drop pat.length)
    else
      match splitFirst pat rest with
      | some (pre, post) => some (c :: pre, post)
      | none => none

/-- Split a character list on a separator character, modelling JavaScript
`String.prototype.split` with a one-character separator. -/
def splitOnChar (sep : Char) : List Char → List (List Char)
  | [] => [[]]
  | c :: rest =>
    if c = sep then [] :: splitOnChar sep rest
    else
      match splitOnChar sep rest with
      | [] => [[c]]
      | g :: gs => (c :: g) :: gs

/-- Join character-list groups with a separator character, modelling
`Array.prototype.join` with a one-character separator. -/
def joinWithChar (sep : Char) : List (List Char) → List Char
  | [] => []
  | [g] => g
  | g :: gs => g ++ sep :: joinWithChar sep gs

/-- ASCII lower-casing of one character, the fragment of JavaScript
`toLowerCase` exercised by the indicator phrases. -/
def charLower (c : Char) : Char :=
  if 'A' ≤ c && c ≤ 'Z' then Char.ofNat (c.toNat + 32) else c

/-- Lower-case a string (ASCII range). -/
def strLower (s : String) : String :=
  ⟨s.data.map charLower⟩

/-- The HTTP status carried by a probe result.  The JavaScript code stores
either the numeric status or the string literal Network Error; we model
the two cases of that union explicitly. -/
inductive Status where
  | code (n : Nat)
  | networkError
  deriving DecidableEq, Repr

/-- An HTTP response as observed by the probe: numeric status plus the
optional `Location` header (`response.headers.location`, absent when the
server does not send the header). -/
structure HttpResponse where
  status : Nat
  location : Option String
  deriving DecidableEq, Repr

/-- Outcome of one axios request before status validation: either a
response arrived or the connection failed / timed out. -/
inductive FetchResult where
  | ok (r : HttpResponse)
  | networkFailure
  deriving DecidableEq, Repr

/-- How axios settles a request given a `validateStatus` predicate: a
response whose status passes the predicate resolves the promise, any
other response rejects with the response attached, and a connection
failure rejects with no response. -/
inductive Resolution where
  | resolved (r : HttpResponse)
  | rejectedWith (r : HttpResponse)
  | rejectedNetwork
  deriving DecidableEq, Repr

/-- Axios settlement of a single request (`validateStatus` from the
request options decides resolve versus reject). -/
def resolveFetch (validate : Nat → Bool) : FetchResult → Resolution
  | .ok r => if validate r.status then .resolved r else .rejectedWith r
  | .networkFailure => .rejectedNetwork

/-- The probe result record `{ url, status, redirectUrl }` built by
`checkUrlStatus`; `redirectUrl` is `none` when the field is absent. -/
structure ProbeResult where
  url : String
  status : Status
  redirectUrl : Option String
  deriving DecidableEq, Repr

/-- A parsed URL, modelling the fields of a WHATWG `URL` object that the
scripts read: scheme and host (together the `origin`) and `pathname`. -/
structure Url where
  scheme : String
  host : String
  pathname : String
  deriving DecidableEq, Repr

/-- The `origin` property of a parsed URL. -/
def Url.origin (u : Url) : String :=
  u.scheme ++ "://" ++ u.host

/-- Characters that end the host portion of a URL. -/
def hostEnd (c : Char) : Bool :=
  c = '/' || c = '?' || c = '#'

/-- Characters that end the pathname portion of a URL. -/
def pathEnd (c : Char) : Bool :=
  c = '?' || c = '#'

/-- Parse an absolute URL of the shape `scheme://host/path?query#frag`,
modelling `new URL(s)` on the http(s) URLs the scripts process.  `none`
models the `TypeError` the WHATWG parser throws on input without a
scheme or host. -/
def parseAbsoluteUrl (s : String) : Option Url :=
  match splitFirst [':', '/', '/'] s.data with
  | none => none
  | some (schemeChars, remainder) =>
    let hostChars := remainder.takeWhile (fun c => !hostEnd c)
    if schemeChars.isEmpty || hostChars.isEmpty then none
    else
      let tail := remainder.drop hostChars.length
      let pathChars :=
        match tail with
        | '/' :: _ => tail.takeWhile (fun c => !pathEnd c)
        | _ => ['/']
      some ⟨⟨schemeChars⟩, ⟨hostChars⟩, ⟨pathChars⟩⟩

/-- Directory of a pathname: everything up to and including the last
slash.  Used for resolving relative references against a base URL. -/
def dirChars (l : List Char) : List Char :=
  (l.reverse.dropWhile (· ≠ '/')).reverse

/-- Resolution of `new URL(url, base)`: an absolute `url` stands alone, a
path-absolute `url` replaces the base's path, and any other nonempty
`url` is appended to the base's directory (dot segments left as
written). -/
def resolveUrl (url base : String) : Option Url :=
  match parseAbsoluteUrl url with
  | some u => some u
  | none =>
    match parseAbsoluteUrl base with
    | none => none
    | some b =>
      match url.data with
      | [] => some b
      | '/' :: _ => some { b with pathname := ⟨url.data.takeWhile (fun c => !pathEnd c)⟩ }
      | _ => some { b with pathname := ⟨dirChars b.pathname.data ++ url.data.takeWhile (fun c => !pathEnd c)⟩ }

/-- Shared `normalizeUrl(url, baseUrl)` of `sitemap.js` and `soft404.js`:
resolve against the base, keep origin plus pathname, strip a trailing
slash from any pathname longer than one character; if URL construction
throws, the original string is returned unchanged. -/
def normalizeUrl (url base : String) : String :=
  match resolveUrl url base with
  | some u =>
    let p :=
      match u.pathname.data.getLast? with
      | some '/' => if u.pathname.data.length > 1 then ⟨u.pathname.data.dropLast⟩ else u.pathname
      | _ => u.pathname
    u.origin ++ p
  | none => url

example : normalizeUrl "https://a.com/x/" "https://a.com/s.xml" = "https://a.com/x" := by decide
example : normalizeUrl "/b" "https://a.com/x/y" = "https://a.com/b" := by decide
example : normalizeUrl "b" "https://a.com/x/y" = "https://a.com/x/b" := by decide
example : parseAbsoluteUrl "https://a.com" = some ⟨"https", "a.com", "/"⟩ := by decide
example : parseAbsoluteUrl "https://a.com/p/q?z#f" = some ⟨"https", "a.com", "/p/q"⟩ := by decide
example : strContains "hello page not found today" "page not found" = true := by decide
example : strLower "Page NOT Found" = "page not found" := by decide

/-- The `checkUrlStatus` of `sitemap.js`: one GET with `validateStatus`
accepting statuses below 400, redirects not followed.  A resolved 301/302
yields `{ url, status, redirectUrl: response.headers.location }`, any
other resolved status yields `{ url, status }`, a rejected response
yields its status, and a connection failure yields the Network Error
marker. -/
def checkUrlStatusSitemap (url : String) (fetch : FetchResult) : ProbeResult :=
  match resolveFetch (fun s => s < 400) fetch with
  | .resolved r =>
    if r.status = 301 || r.status = 302 then ⟨url, .code r.status, r.location⟩
    else ⟨url, .code r.status, none⟩
  | .rejectedWith r => ⟨url, .code r.status, none⟩
  | .rejectedNetwork => ⟨url, .networkError, none⟩

/-- Number of retry attempts configured in `soft404.js` (`RETRY_ATTEMPTS`). -/
def RETRY_ATTEMPTS : Nat := 3

/-- One attempt of the `soft404.js` probe: the HEAD request outcome and
the GET outcome used only when the HEAD request rejects. -/
structure AttemptOutcome where
  head : FetchResult
  get : FetchResult
  deriving DecidableEq, Repr

/-- Settlement of one attempt in the `soft404.js` `checkUrlStatus`: try
HEAD first with `validateStatus` accepting statuses below 500; if it
rejects for any reason, fall back to GET under the same validation. -/
def attemptResolve (a : AttemptOutcome) : Resolution :=
  match resolveFetch (fun s => s < 500) a.head with
  | .resolved r => .resolved r
  | _ => resolveFetch (fun s => s < 500) a.get

/-- The `checkUrlStatus` of `soft404.js`: `outcomes k` is the network
outcome of attempt `k`.  A resolved 301/302 carries the `Location`
header; a rejected response with status 429 within the attempt budget
recurses with the next attempt number (the retry branch of the source's
catch block); any other rejection surfaces its status, and a connection
failure surfaces the Network Error marker. -/
def checkUrlStatusSoft (url : String) (outcomes : Nat → AttemptOutcome) (attempt : Nat) : ProbeResult :=
  match attemptResolve (outcomes attempt) with
  | .resolved r =>
    if r.status = 301 || r.status = 302 then ⟨url, .code r.status, r.location⟩
    else ⟨url, .code r.status, none⟩
  | .rejectedWith r =>
    if h : r.status = 429 ∧ attempt ≤ RETRY_ATTEMPTS then
      checkUrlStatusSoft url outcomes (attempt + 1)
    else ⟨url, .code r.status, none⟩
  | .rejectedNetwork => ⟨url, .networkError, none⟩
termination_by RETRY_ATTEMPTS + 1 - attempt
decreasing_by
  have := h.2
  omega

/-- One attempt of the `soft404.js` probe evaluated without any retry:
what `checkUrlStatus` returns from the attempt's settlement alone. -/
def checkUrlStatusOneAttempt (url : String) (a : AttemptOutcome) : ProbeResult :=
  match attemptResolve a with
  | .resolved r =>
    if r.status = 301 || r.status = 302 then ⟨url, .code r.status, r.location⟩
    else ⟨url, .code r.status, none⟩
  | .rejectedWith r => ⟨url, .code r.status, none⟩
  | .rejectedNetwork => ⟨url, .networkError, none⟩

theorem resolveFetch_rejectedWith_validate (v : Nat → Bool) (f : FetchResult) (r : HttpResponse)
    (h : resolveFetch v f = .rejectedWith r) : v r.status = false := by
  cases f with
  | ok r' =>
    simp only [resolveFetch] at h
    by_cases hv : v r'.status = true
    · rw [if_pos hv] at h
      cases h
    · rw [if_neg hv] at h
      cases h
      exact Bool.eq_false_iff.mpr hv
  | networkFailure => simp [resolveFetch] at h

theorem attemptResolve_rejectedWith_ge500 (a : AttemptOutcome) (r : HttpResponse)
    (h : attemptResolve a = .rejectedWith r) : 500 ≤ r.status := by
  have key : ∀ f : FetchResult, resolveFetch (fun s => s < 500) f = .rejectedWith r → 500 ≤ r.status := by
    intro f hf
    have hb := resolveFetch_rejectedWith_validate _ f r hf
    simp only [decide_eq_false_iff_not, Nat.not_lt] at hb
    exact hb
  unfold attemptResolve at h
  cases hh : resolveFetch (fun s => s < 500) a.head with
  | resolved r' => rw [hh] at h; cases h
  | rejectedWith r' => rw [hh] at h; exact key a.get h
  | rejectedNetwork => rw [hh] at h; exact key a.get h

/-- The retry branch of the `soft404.js` `checkUrlStatus` is unreachable:
because `validateStatus` accepts every status below 500, a 429 response
resolves rather than rejects, so the result is always computed from the
current attempt's settlement alone. -/
theorem checkUrlStatusSoft_eq_oneAttempt (url : String) (outcomes : Nat → AttemptOutcome) (attempt : Nat) :
    checkUrlStatusSoft url outcomes attempt = checkUrlStatusOneAttempt url (outcomes attempt) := by
  rw [checkUrlStatusSoft]
  unfold checkUrlStatusOneAttempt
  cases hh : attemptResolve (outcomes attempt) with
  | resolved r => rfl
  | rejectedWith r =>
    have hge := attemptResolve_rejectedWith_ge500 _ _ hh
    have hne : ¬(r.status = 429 ∧ attempt ≤ RETRY_ATTEMPTS) := by
      rintro ⟨h1, _⟩
      omega
    simp [hne]
  | rejectedNetwork => rfl

/-- C3: the spec says a 429 response triggers exponential-backoff retries
bounded by `RETRY_ATTEMPTS` before the 429 becomes terminal, and the
code's own comments and retry branch say the same; but `validateStatus`
accepts every status below 500, so a 429 response resolves the request
and is returned immediately from the first attempt — the retry branch
never runs for any sequence of attempt outcomes. -/
theorem claim_C3_429_not_retried :
    (∀ url outcomes attempt,
      checkUrlStatusSoft url outcomes attempt = checkUrlStatusOneAttempt url (outcomes attempt)) ∧
    checkUrlStatusSoft "https://example.com/a"
        (fun _ => ⟨.ok ⟨429, none⟩, .ok ⟨429, none⟩⟩) 1 =
      ⟨"https://example.com/a", .code 429, none⟩ := by
  refine ⟨checkUrlStatusSoft_eq_oneAttempt, ?_⟩
  rw [checkUrlStatusSoft_eq_oneAttempt]
  decide

theorem checkUrlStatusSitemap_shape (url : String) (fetch : FetchResult) :
    (checkUrlStatusSitemap url fetch).redirectUrl = none ∨
    (checkUrlStatusSitemap url fetch).status = .code 301 ∨
    (checkUrlStatusSitemap url fetch).status = .code 302 := by
  unfold checkUrlStatusSitemap
  cases hres : resolveFetch (fun s => s < 400) fetch with
  | resolved r =>
    by_cases h3 : r.status = 301 <;> by_cases h4 : r.status = 302 <;> simp [h3, h4]
  | rejectedWith r => simp
  | rejectedNetwork => simp

theorem checkUrlStatusOneAttempt_shape (url : String) (a : AttemptOutcome) :
    (checkUrlStatusOneAttempt url a).redirectUrl = none ∨
    (checkUrlStatusOneAttempt url a).status = .code 301 ∨
    (checkUrlStatusOneAttempt url a).status = .code 302 := by
  unfold checkUrlStatusOneAttempt
  cases hres : attemptResolve a with
  | resolved r =>
    by_cases h3 : r.status = 301 <;> by_cases h4 : r.status = 302 <;> simp [h3, h4]
  | rejectedWith r => simp
  | rejectedNetwork => simp

/-- C1 (amended): a 301/302 response observed by either `checkUrlStatus`
yields a result whose `redirectUrl` field is exactly the response's
`Location` header — present only when the header was present — and no
result whose status is not 301 or 302 carries a `redirectUrl`. -/
theorem claim_C1_redirect_target :
    (∀ (url : String) (r : HttpResponse), r.status = 301 ∨ r.status = 302 →
      checkUrlStatusSitemap url (.ok r) = ⟨url, .code r.status, r.location⟩) ∧
    (∀ (url : String) (fetch : FetchResult),
      (checkUrlStatusSitemap url fetch).status ≠ .code 301 →
      (checkUrlStatusSitemap url fetch).status ≠ .code 302 →
      (checkUrlStatusSitemap url fetch).redirectUrl = none) ∧
    (∀ (url : String) (outcomes : Nat → AttemptOutcome) (attempt : Nat) (r : HttpResponse),
      attemptResolve (outcomes attempt) = .resolved r → r.status = 301 ∨ r.status = 302 →
      checkUrlStatusSoft url outcomes attempt = ⟨url, .code r.status, r.location⟩) ∧
    (∀ (url : String) (outcomes : Nat → AttemptOutcome) (attempt : Nat),
      (checkUrlStatusSoft url outcomes attempt).status ≠ .code 301 →
      (checkUrlStatusSoft url outcomes attempt).status ≠ .code 302 →
      (checkUrlStatusSoft url outcomes attempt).redirectUrl = none) := by
  refine ⟨?_, ?_, ?_, ?_⟩
  · intro url r h
    rcases h with h | h <;> simp [checkUrlStatusSitemap, resolveFetch, h]
  · intro url fetch h1 h2
    rcases checkUrlStatusSitemap_shape url fetch with h | h | h
    · exact h
    · exact absurd h h1
    · exact absurd h h2
  · intro url outcomes attempt r hres h
    rw [checkUrlStatusSoft_eq_oneAttempt]
    unfold checkUrlStatusOneAttempt
    rw [hres]
    rcases h with h | h <;> simp [h]
  · intro url outcomes attempt h1 h2
    rw [checkUrlStatusSoft_eq_oneAttempt] at *
    rcases checkUrlStatusOneAttempt_shape url (outcomes attempt) with h | h | h
    · exact h
    · exact absurd h h1
    · exact absurd h h2

/-- C1 witness: the amended theorem applied at concrete inputs — a 301
response with a `Location` header yields that header as `redirectUrl`,
and a 200 response yields no `redirectUrl`. -/
theorem claim_C1_redirect_target_witness :
    checkUrlStatusSitemap "https://example.com/a" (.ok ⟨301, some "https://example.com/b"⟩) =
      ⟨"https://example.com/a", .code 301, some "https://example.com/b"⟩ ∧
    (checkUrlStatusSitemap "https://example.com/c" (.ok ⟨200, none⟩)).redirectUrl = none :=
  ⟨claim_C1_redirect_target.1 "https://example.com/a" ⟨301, some "https://example.com/b"⟩ (Or.inl rfl),
   claim_C1_redirect_target.2.1 "https://example.com/c" (.ok ⟨200, none⟩) (by decide) (by decide)⟩

/-- C1 counterexample: a 301 response that carries no `Location` header
produces a probe result with status 301 and no `redirectUrl`, so a
301/302 status does not always come with a redirect target. -/
theorem claim_C1_counterexample :
    (checkUrlStatusSitemap "https://example.com/a" (.ok ⟨301, none⟩)).status = .code 301 ∧
    (checkUrlStatusSitemap "https://example.com/a" (.ok ⟨301, none⟩)).redirectUrl = none := by
  decide

/-- Check whether `pat` is a suffix of `s` (character lists). -/
def charsHaveEnd (s pat : List Char) : Bool :=
  charsHaveStart s.reverse pat.reverse

/-- Suffix test, modelling JavaScript `String.prototype.endsWith`. -/
def strEndsWith (s pat : String) : Bool :=
  charsHaveEnd s.data pat.data

/-- The strong soft-404 indicator phrases of `soft404.js`
(`SOFT_404_INDICATORS.strong`). -/
def SOFT_404_STRONG : List String :=
  ["404 not found", "page not found", "page cannot be found", "page does not exist",
   "page no longer exists", "content not found", "content unavailable",
   "no longer available", "no results found", "no matching results", "error 404",
   "page introuvable", "seite nicht gefunden", "pagina non trovata",
   "página no encontrada"]

/-- The weak soft-404 indicator phrases of `soft404.js`
(`SOFT_404_INDICATORS.weak`). -/
def SOFT_404_WEAK : List String :=
  ["not found", "no results", "sorry we couldn't find", "we apologize",
   "unavailable", "introuvable", "nicht gefunden"]

/-- The URL-path terms of `soft404.js` that suggest legitimate content
(`FALSE_POSITIVE_TERMS`). -/
def FALSE_POSITIVE_TERMS : List String :=
  ["demo", "ebook", "guide", "download", "resource", "webinar", "contact",
   "form", "signup", "sign up", "register", "login", "log in", "trial",
   "free trial", "pricing", "about", "features", "product"]

/-- The `isLikelyLegitPage(url)` of `soft404.js`: lower-case the pathname
of `new URL(url)` and accept it when it contains a false-positive term or
matches a common legitimate-page pattern.  `none` models the `TypeError`
thrown when the URL does not parse. -/
def isLikelyLegitPage (url : String) : Option Bool :=
  match parseAbsoluteUrl url with
  | none => none
  | some u =>
    let path := strLower u.pathname
    some (FALSE_POSITIVE_TERMS.any (fun term => strContains path term) ||
      (strEndsWith path ".pdf" || strEndsWith path ".html" ||
       strContains path "/blog/" || strContains path "/article/" ||
       strContains path "/product/" || strContains path "/category/"))

/-- The signals `checkForSoft404` extracts from a fetched page with
cheerio: whether any HTML content arrived (JavaScript truthiness of
`html`), the title / body / first-heading / meta-description text, and
the structural element counts reduced to their tested `length > 0`
form. -/
structure PageSignals where
  htmlPresent : Bool
  pageTitle : String
  bodyText : String
  h1Text : String
  metaDescription : String
  hasSearchForm : Bool
  hasForm : Bool
  hasInputFields : Bool
  hasButtons : Bool
  has404Image : Bool
  deriving DecidableEq, Repr

/-- The record returned by `checkForSoft404`; `statusMsg` models its
`status` message field. -/
structure Soft404Result where
  url : String
  isSoft404 : Bool
  httpStatus : Status
  indicators : List String
  statusMsg : String
  deriving DecidableEq, Repr

/-- Decimal rendering of a status for the hard-error message, modelling
JavaScript template interpolation of the status value. -/
def statusText : Status → String
  | .code n => Nat.repr n
  | .networkError => "Network Error"

/-- Strong indicators found on a page: the phrases occurring in the
lower-cased title, first heading, or meta description. -/
def strongIndicatorsOf (p : PageSignals) : List String :=
  SOFT_404_STRONG.filter (fun ind =>
    strContains (strLower p.pageTitle) ind || strContains (strLower p.h1Text) ind ||
      strContains (strLower p.metaDescription) ind)

/-- Weak phrase indicators found on a page, over the same three text
sources as the strong ones. -/
def weakTextIndicatorsOf (p : PageSignals) : List String :=
  SOFT_404_WEAK.filter (fun ind =>
    strContains (strLower p.pageTitle) ind || strContains (strLower p.h1Text) ind ||
      strContains (strLower p.metaDescription) ind)

/-- The additional structural weak indicators of `checkForSoft404`:
minimal body text without forms or input fields, a search form together
with no-results phrasing, and a 404 image. -/
def additionalIndicatorsOf (p : PageSignals) : List String :=
  (if p.bodyText.data.length < 1000 && !p.hasForm && !p.hasInputFields then
    ["minimal content without interaction"] else []) ++
  (if p.hasSearchForm &&
      (strContains (strLower p.bodyText) "no results" ||
       strContains (strLower p.bodyText) "no matches" ||
       strContains (strLower p.bodyText) "nothing found") then
    ["search with no results"] else []) ++
  (if p.has404Image then ["404 image"] else [])

/-- All weak indicators of a page, phrase indicators first, in source
order. -/
def allWeakIndicatorsOf (p : PageSignals) : List String :=
  weakTextIndicatorsOf p ++ additionalIndicatorsOf p

/-- Whether the page shows interactive elements: forms, text or email
inputs, or buttons. -/
def interactiveElements (p : PageSignals) : Bool :=
  p.hasForm || p.hasInputFields || p.hasButtons

/-- The weak-indicator verdict of `checkForSoft404`, folding the source's
successive reassignments of `isSoft404` into one expression: start from
the two-indicator threshold, switch to a three-indicator threshold with
an interactive-element override when the URL path looks legitimate, and
finally downgrade a lone 404-image indicator on interactive or
legitimate pages. -/
def weakVerdict (p : PageSignals) (isLegitPage : Bool) : Bool :=
  if (allWeakIndicatorsOf p).length = 1 ∧
      (allWeakIndicatorsOf p).head? = some "404 image" ∧
      (interactiveElements p || isLegitPage) = true then
    false
  else
    if isLegitPage then
      if interactiveElements p then false else (allWeakIndicatorsOf p).length ≥ 3
    else (allWeakIndicatorsOf p).length ≥ 2

/-- The `checkForSoft404(html, url, httpStatus)` of `soft404.js`.  Empty
or missing HTML returns the no-content record before anything else; an
unparseable URL makes `isLikelyLegitPage` throw, modelled as `none`; a
non-200 status returns the hard-error record; a strong indicator returns
an immediate soft-404; otherwise weak indicators accumulate against a
threshold of two, raised to three with an interactive-element override
when the URL path looks legitimate, with a final special case downgrading
a lone 404-image indicator on interactive or legitimate pages. -/
def checkForSoft404 (p : PageSignals) (url : String) (httpStatus : Status) : Option Soft404Result :=
  if !p.htmlPresent then
    some ⟨url, false, httpStatus, [], "Error: No HTML content"⟩
  else
    match isLikelyLegitPage url with
    | none => none
    | some isLegitPage =>
      if httpStatus ≠ .code 200 then
        some ⟨url, false, httpStatus, [], "Hard error: HTTP " ++ statusText httpStatus⟩
      else
        if (strongIndicatorsOf p).length > 0 then
          some ⟨url, true, httpStatus, strongIndicatorsOf p, "Soft 404 detected (strong indicators)"⟩
        else
          some ⟨url, weakVerdict p isLegitPage, httpStatus, allWeakIndicatorsOf p,
            if weakVerdict p isLegitPage then
              "Soft 404 detected (multiple weak indicators)"
            else "OK"⟩

example : statusText (.code 404) = "404" := by decide
example : isLikelyLegitPage "https://example.com/missing" = some false := by decide
example : isLikelyLegitPage "https://example.com/pricing/plans" = some true := by decide

/-- C4: on a page that arrived with HTTP 200 and nonempty HTML, any
single strong indicator phrase occurring in the title, first heading, or
meta description makes `checkForSoft404` return an immediate soft-404,
whatever the body length and the weak or interactive signals are. -/
theorem claim_C4_strong_indicator (p : PageSignals) (url : String) (legit : Bool)
    (hhtml : p.htmlPresent = true) (hlegit : isLikelyLegitPage url = some legit)
    (hstrong : ∃ ind ∈ SOFT_404_STRONG,
      (strContains (strLower p.pageTitle) ind || strContains (strLower p.h1Text) ind ||
        strContains (strLower p.metaDescription) ind) = true) :
    ∃ r, checkForSoft404 p url (.code 200) = some r ∧ r.isSoft404 = true ∧
      r.indicators = strongIndicatorsOf p ∧
      r.statusMsg = "Soft 404 detected (strong indicators)" := by
  obtain ⟨ind, hmem, hpred⟩ := hstrong
  have hne : strongIndicatorsOf p ≠ [] :=
    List.ne_nil_of_mem (List.mem_filter.mpr ⟨hmem, hpred⟩)
  have hlen : 0 < (strongIndicatorsOf p).length := List.length_pos.mpr hne
  refine ⟨⟨url, true, .code 200, strongIndicatorsOf p, "Soft 404 detected (strong indicators)"⟩, ?_, rfl, rfl, rfl⟩
  simp [checkForSoft404, hhtml, hlegit, hlen]

/-- C4 witness: the spec's example page with title Page Not Found and a
tiny body is classified a soft 404 through the strong-indicator path. -/
theorem claim_C4_strong_indicator_witness :
    ∃ r, checkForSoft404
        ⟨true, "Page Not Found", "short body", "", "", false, false, false, false, false⟩
        "https://example.com/missing" (.code 200) = some r ∧
      r.isSoft404 = true ∧
      r.indicators = strongIndicatorsOf
        ⟨true, "Page Not Found", "short body", "", "", false, false, false, false, false⟩ ∧
      r.statusMsg = "Soft 404 detected (strong indicators)" :=
  claim_C4_strong_indicator
    ⟨true, "Page Not Found", "short body", "", "", false, false, false, false, false⟩
    "https://example.com/missing" false (by decide) (by decide)
    ⟨"page not found", by decide, by decide⟩

/-- A sample page whose lower-cased title and meta description contain
two weak indicator phrases but no strong one, and which carries a form
and a button. -/
def samplePage : PageSignals :=
  ⟨true, "not found", "some body text", "", "unavailable", false, true, false, true, false⟩

/-- C5 counterexample: on a URL whose path suggests no legitimate
content, a page with exactly two weak indicators is classified a soft
404 even though it contains a form and a button, so interactive
elements neither raise the threshold to three nor override the
classification there. -/
theorem claim_C5_counterexample :
    (checkForSoft404 samplePage "https://example.com/xyz" (.code 200)).map (·.isSoft404) =
        some true ∧
      samplePage.hasForm = true ∧ samplePage.hasButtons = true ∧
      (allWeakIndicatorsOf samplePage).length = 2 ∧
      isLikelyLegitPage "https://example.com/xyz" = some false := by
  decide

theorem weakVerdict_eq_thresholds (p : PageSignals) (legit : Bool) :
    weakVerdict p legit = (if legit then
        decide (3 ≤ (allWeakIndicatorsOf p).length) && !interactiveElements p
      else decide (2 ≤ (allWeakIndicatorsOf p).length)) := by
  unfold weakVerdict
  by_cases hspec : (allWeakIndicatorsOf p).length = 1 ∧
      (allWeakIndicatorsOf p).head? = some "404 image" ∧
      (interactiveElements p || legit) = true
  · rw [if_pos hspec]
    rcases hspec with ⟨h1, -, -⟩
    rw [h1]
    cases legit <;> cases hi : interactiveElements p <;> simp
  · rw [if_neg hspec]
    cases legit <;> cases hi : interactiveElements p <;> simp [hi]

theorem checkForSoft404_weak_step (p : PageSignals) (url : String) (legit : Bool)
    (hhtml : p.htmlPresent = true) (hlegit : isLikelyLegitPage url = some legit)
    (hnostrong : strongIndicatorsOf p = []) :
    checkForSoft404 p url (.code 200) =
      some ⟨url, weakVerdict p legit, .code 200, allWeakIndicatorsOf p,
        if weakVerdict p legit then "Soft 404 detected (multiple weak indicators)"
        else "OK"⟩ := by
  unfold checkForSoft404
  rw [hhtml, hlegit]
  simp [hnostrong]

/-- C5 (amended): with no strong indicator and an HTTP 200 page, the
classifier flags a soft 404 exactly when at least two weak indicators
accumulate if the URL path suggests no legitimate content; when the path
does suggest legitimate content the threshold is three and any
interactive element (form, text or email input, button) overrides the
classification to false.  Interactive elements on a non-legitimate-path
page change neither the threshold nor the verdict. -/
theorem claim_C5_weak_thresholds (p : PageSignals) (url : String) (legit : Bool)
    (hhtml : p.htmlPresent = true) (hlegit : isLikelyLegitPage url = some legit)
    (hnostrong : strongIndicatorsOf p = []) :
    ∃ r, checkForSoft404 p url (.code 200) = some r ∧
      r.isSoft404 = (if legit then
          decide (3 ≤ (allWeakIndicatorsOf p).length) && !interactiveElements p
        else decide (2 ≤ (allWeakIndicatorsOf p).length)) :=
  ⟨_, checkForSoft404_weak_step p url legit hhtml hlegit hnostrong,
    weakVerdict_eq_thresholds p legit⟩

/-- C5 witness: the amended theorem applied to the sample page on a
non-legitimate path, where two weak indicators suffice despite the
form. -/
theorem claim_C5_weak_thresholds_witness :
    ∃ r, checkForSoft404 samplePage "https://example.com/xyz" (.code 200) = some r ∧
      r.isSoft404 = true := by
  obtain ⟨r, hr, hiso⟩ := claim_C5_weak_thresholds samplePage "https://example.com/xyz" false
    (by decide) (by decide) (by decide)
  refine ⟨r, hr, ?_⟩
  rw [hiso]
  decide

/-- C6: a response whose status is not 200 is never classified as a soft
404, whatever the page contains, and whenever HTML content is present the
result reports the hard-error message naming that status. -/
theorem claim_C6_non200_never_soft404 (p : PageSignals) (url : String) (st : Status)
    (hst : st ≠ .code 200) (r : Soft404Result)
    (hr : checkForSoft404 p url st = some r) :
    r.isSoft404 = false ∧
      (p.htmlPresent = true → r.statusMsg = "Hard error: HTTP " ++ statusText st) := by
  unfold checkForSoft404 at hr
  cases hhtml : p.htmlPresent with
  | false =>
    rw [hhtml] at hr
    simp only [Bool.not_false, if_true, Option.some.injEq] at hr
    subst hr
    exact ⟨rfl, by intro h; cases h⟩
  | true =>
    rw [hhtml] at hr
    simp only [Bool.not_true, Bool.false_eq_true, if_false] at hr
    cases hlegit : isLikelyLegitPage url with
    | none =>
      rw [hlegit] at hr
      simp at hr
    | some legit =>
      rw [hlegit] at hr
      simp only [if_pos hst, Option.some.injEq] at hr
      subst hr
      exact ⟨rfl, fun _ => rfl⟩

/-- C6 witness: the theorem applied to the sample page fetched with a
404 status. -/
theorem claim_C6_non200_never_soft404_witness :
    ∃ r, checkForSoft404 samplePage "https://example.com/xyz" (.code 404) = some r ∧
      r.isSoft404 = false ∧ r.statusMsg = "Hard error: HTTP 404" := by
  refine ⟨⟨"https://example.com/xyz", false, .code 404, [], "Hard error: HTTP 404"⟩,
    by decide, ?_, rfl⟩
  exact (claim_C6_non200_never_soft404 samplePage "https://example.com/xyz" (.code 404)
    (by decide) _ (by decide)).1

/-- Nonempty path segments of a pathname, as in
`urlPath.split('/').filter((part) => part)`. -/
def pathPartsOf (pathname : String) : List (List Char) :=
  (splitOnChar '/' pathname.data).filter (fun g => !g.isEmpty)

/-- The ancestor URL candidate of strategy 1 of `findSimilarUrl`: the
origin followed by a slash and the first `i` path segments joined with
slashes. -/
def ancestorCandidate (origin : String) (pathParts : List (List Char)) (i : Nat) : String :=
  origin ++ ⟨'/' :: joinWithChar '/' (pathParts.take i)⟩

/-- Strategy 1 of `findSimilarUrl`: walk the broken URL's ancestors from
the most specific (all segments but the last) down to the origin root and
return the first one contained in the valid-URL list. -/
def tryParentPaths (origin : String) (pathParts : List (List Char)) (validUrls : List String) : Option String :=
  (List.range pathParts.length).reverse.findSome? (fun i =>
    let parentUrl := ancestorCandidate origin pathParts i
    if validUrls.contains parentUrl then some parentUrl else none)

/-- Hyphen-split keywords of a list of path segments, as in
`pathParts.flatMap((part) => part.split('-'))`. -/
def keywordsOf (pathParts : List (List Char)) : List (List Char) :=
  pathParts.flatMap (fun part => splitOnChar '-' part)

/-- Keyword-overlap test of strategy 2: some keyword longer than three
characters from the broken path is a substring of, or contains, some
keyword of the candidate path. -/
def hasKeywordOverlap (keywords pathKeywords : List (List Char)) : Bool :=
  keywords.any (fun k =>
    k.length > 3 && pathKeywords.any (fun pk => charsContain pk k || charsContain k pk))

/-- Strategy 2 of `findSimilarUrl`: among valid URLs on the broken URL's
origin, keep those whose path keywords overlap the broken URL's keywords
(a URL that fails to parse is skipped). -/
def similarByKeywords (parsed : Url) (pathParts : List (List Char)) (validUrls : List String) : List String :=
  let keywords := keywordsOf pathParts
  let relevantUrls := validUrls.filter (fun u => charsHaveStart u.data parsed.origin.data)
  relevantUrls.filter (fun u =>
    match parseAbsoluteUrl u with
    | none => false
    | some pu => hasKeywordOverlap keywords (keywordsOf (pathPartsOf pu.pathname)))

/-- The `findSimilarUrl(notFoundUrl, validUrls)` shared by `sitemap.js`
and `soft404.js`: empty valid list or unparseable broken URL yields the
empty suggestion; otherwise the first matching ancestor path wins, then
the first keyword-overlap match, then the origin homepage. -/
def findSimilarUrl (notFoundUrl : String) (validUrls : List String) : String :=
  if validUrls.isEmpty then ""
  else
    match parseAbsoluteUrl notFoundUrl with
    | none => ""
    | some parsed =>
      let pathParts := pathPartsOf parsed.pathname
      match tryParentPaths parsed.origin pathParts validUrls with
      | some u => u
      | none =>
        match similarByKeywords parsed pathParts validUrls with
        | u :: _ => u
        | [] => parsed.origin

example :
    findSimilarUrl "https://example.com/blog/2020/old-post"
      ["https://example.com/blog/2020"] = "https://example.com/blog/2020" := by decide
example :
    findSimilarUrl "https://example.com/blog/2020/old-post"
      ["https://example.com/about-old-post-items"] = "https://example.com/about-old-post-items" := by decide
example :
    findSimilarUrl "https://example.com/blog/2020/old-post"
      ["https://example.com/qqq"] = "https://example.com" := by decide

/-- C7: for the broken URL `/blog/2020/old-post` and any valid-URL list
containing the same origin's `/blog/2020`, the ancestor-path walk finds
`/blog/2020` at its first step (most specific ancestor first), so that
URL is returned no matter what keyword-overlap or homepage candidates
the list also holds. -/
theorem claim_C7_ancestor_first (validUrls : List String)
    (h : validUrls.contains "https://example.com/blog/2020" = true) :
    findSimilarUrl "https://example.com/blog/2020/old-post" validUrls =
      "https://example.com/blog/2020" := by
  have hne : validUrls.isEmpty = false := by
    cases validUrls with
    | nil => simp at h
    | cons a l => rfl
  unfold findSimilarUrl
  rw [hne]
  simp only [Bool.false_eq_true, if_false]
  rw [show parseAbsoluteUrl "https://example.com/blog/2020/old-post" =
    some ⟨"https", "example.com", "/blog/2020/old-post"⟩ from by decide]
  have hstep : tryParentPaths (Url.origin ⟨"https", "example.com", "/blog/2020/old-post"⟩)
      (pathPartsOf "/blog/2020/old-post") validUrls = some "https://example.com/blog/2020" := by
    unfold tryParentPaths
    rw [show (List.range (pathPartsOf "/blog/2020/old-post").length).reverse = [2, 1, 0] from by decide]
    rw [List.findSome?_cons]
    rw [show ancestorCandidate (Url.origin ⟨"https", "example.com", "/blog/2020/old-post"⟩)
      (pathPartsOf "/blog/2020/old-post") 2 = "https://example.com/blog/2020" from by decide]
    have hmem : "https://example.com/blog/2020" ∈ validUrls := by
      simpa using h
    simp [hmem]
  simp only [hstep]

/-- C7 witness: the theorem applied to a list whose first entry is a
keyword-overlap candidate; the ancestor match still wins. -/
theorem claim_C7_ancestor_first_witness :
    findSimilarUrl "https://example.com/blog/2020/old-post"
      ["https://example.com/about-old-post-items", "https://example.com/blog/2020"] =
      "https://example.com/blog/2020" :=
  claim_C7_ancestor_first
    ["https://example.com/about-old-post-items", "https://example.com/blog/2020"]
    (by decide)

/-- JavaScript `Map.prototype.set` on an association list: update the
entry with the given key in place, or append a new entry. -/
def mapSet (m : List (String × String)) (k v : String) : List (String × String) :=
  if m.any (fun p => p.1 = k) then m.map (fun p => if p.1 = k then (k, v) else p)
  else m ++ [(k, v)]

/-- The `normalizedUrlMap` of `processSitemap`: for each inventory URL in
order, `set(normalizeUrl(url, sitemapUrl), url)`. -/
def buildNormalizedMap (urls : List String) (baseUrl : String) : List (String × String) :=
  urls.foldl (fun m url => mapSet m (normalizeUrl url baseUrl) url) []

/-- The redirect-redundancy check of `processSitemap`: normalize the
redirect target against the source URL as base and scan the normalized
map in insertion order, stopping at the first entry with that key; a hit
yields `(true, originalUrl)`, a miss `(false, "")` (the loop's
`redundantUrl` flag and `targetUrl`). -/
def classifyRedirect (nmap : List (String × String)) (url redirectUrl : String) : Bool × String :=
  match nmap.find? (fun p => p.1 = normalizeUrl redirectUrl url) with
  | some p => (true, p.2)
  | none => (false, "")

theorem mapSet_mem {m : List (String × String)} {k v : String} {p : String × String}
    (h : p ∈ mapSet m k v) : p ∈ m ∨ p = (k, v) := by
  unfold mapSet at h
  split at h
  · obtain ⟨q, hq, hqe⟩ := List.mem_map.mp h
    by_cases hk : q.1 = k
    · right
      rw [← hqe]
      simp [hk]
    · left
      rw [← hqe]
      simp only [hk, if_false]
      exact hq
  · rcases List.mem_append.mp h with h | h
    · exact Or.inl h
    · exact Or.inr (List.mem_singleton.mp h)

theorem mapSet_key_mem (m : List (String × String)) (k v : String) :
    ∃ p ∈ mapSet m k v, p.1 = k := by
  unfold mapSet
  by_cases ha : m.any (fun p => p.1 = k) = true
  · rw [if_pos ha]
    obtain ⟨q, hq, hqk⟩ := List.any_eq_true.mp ha
    refine ⟨(k, v), List.mem_map.mpr ⟨q, hq, ?_⟩, rfl⟩
    simp only [decide_eq_true_eq] at hqk
    simp [hqk]
  · rw [if_neg ha]
    exact ⟨(k, v), List.mem_append.mpr (Or.inr (List.mem_singleton.mpr rfl)), rfl⟩

theorem mapSet_key_preserved {m : List (String × String)} {k : String} (k' v' : String)
    (h : ∃ p ∈ m, p.1 = k) : ∃ p ∈ mapSet m k' v', p.1 = k := by
  by_cases hk : k' = k
  · subst hk
    exact mapSet_key_mem m k' v'
  · obtain ⟨p, hp, hpk⟩ := h
    unfold mapSet
    by_cases ha : m.any (fun q => q.1 = k') = true
    · rw [if_pos ha]
      refine ⟨p, List.mem_map.mpr ⟨p, hp, ?_⟩, hpk⟩
      rw [hpk, if_neg (fun he => hk he.symm)]
    · rw [if_neg ha]
      exact ⟨p, List.mem_append.mpr (Or.inl hp), hpk⟩

theorem buildNormalizedMap_entries_aux (base : String) (l : List String) :
    ∀ (m₀ : List (String × String)) (p : String × String),
      p ∈ l.foldl (fun m url => mapSet m (normalizeUrl url base) url) m₀ →
      p ∈ m₀ ∨ (p.2 ∈ l ∧ normalizeUrl p.2 base = p.1) := by
  induction l with
  | nil => intro m₀ p h; exact Or.inl h
  | cons u l ih =>
    intro m₀ p h
    rcases ih (mapSet m₀ (normalizeUrl u base) u) p h with h' | h'
    · rcases mapSet_mem h' with h'' | h''
      · exact Or.inl h''
      · right
        rw [h'']
        exact ⟨List.mem_cons_self u l, rfl⟩
    · exact Or.inr ⟨List.mem_cons_of_mem u h'.1, h'.2⟩

theorem buildNormalizedMap_entries {urls : List String} {base : String} {p : String × String}
    (h : p ∈ buildNormalizedMap urls base) :
    p.2 ∈ urls ∧ normalizeUrl p.2 base = p.1 := by
  rcases buildNormalizedMap_entries_aux base urls [] p h with h' | h'
  · cases h'
  · exact h'

theorem buildNormalizedMap_keys_aux (base : String) (l : List String) :
    ∀ (m₀ : List (String × String)) (u : String),
      u ∈ l ∨ (∃ p ∈ m₀, p.1 = normalizeUrl u base) →
      ∃ p ∈ l.foldl (fun m url => mapSet m (normalizeUrl url base) url) m₀,
        p.1 = normalizeUrl u base := by
  induction l with
  | nil =>
    intro m₀ u h
    rcases h with h | h
    · cases h
    · exact h
  | cons w l ih =>
    intro m₀ u h
    rcases h with h | h
    · rcases List.mem_cons.mp h with h' | h'
      · subst h'
        exact ih _ u (Or.inr (mapSet_key_mem m₀ (normalizeUrl u base) u))
      · exact ih _ u (Or.inl h')
    · exact ih _ u (Or.inr (mapSet_key_preserved _ _ h))

theorem buildNormalizedMap_keys {urls : List String} {base : String} {u : String}
    (h : u ∈ urls) :
    ∃ p ∈ buildNormalizedMap urls base, p.1 = normalizeUrl u base :=
  buildNormalizedMap_keys_aux base urls [] u (Or.inl h)

/-- C2: with the normalized-URL map built from the inventory, a redirect
whose target — resolved against the source URL as base and normalized —
equals the normalized form of an inventory URL `B` (unique in that
normalized form) is marked redundant with target `B`; a redirect whose
normalized target matches no inventory URL is left unmarked. -/
theorem claim_C2_redundancy (urls : List String) (base A B redirect : String) :
    (B ∈ urls → normalizeUrl redirect A = normalizeUrl B base →
      (∀ C ∈ urls, normalizeUrl C base = normalizeUrl B base → C = B) →
      classifyRedirect (buildNormalizedMap urls base) A redirect = (true, B)) ∧
    ((∀ C ∈ urls, normalizeUrl C base ≠ normalizeUrl redirect A) →
      classifyRedirect (buildNormalizedMap urls base) A redirect = (false, "")) := by
  constructor
  · intro hB heq huniq
    unfold classifyRedirect
    cases hf : (buildNormalizedMap urls base).find?
        (fun p => p.1 = normalizeUrl redirect A) with
    | none =>
      obtain ⟨p₀, hp₀, hk₀⟩ := @buildNormalizedMap_keys urls base B hB
      have := List.find?_eq_none.mp hf p₀ hp₀
      rw [← heq] at hk₀
      simp [hk₀] at this
    | some p =>
      have hpred := List.find?_some hf
      simp only [decide_eq_true_eq] at hpred
      have hmem := List.mem_of_find?_eq_some hf
      obtain ⟨hin, hnorm⟩ := buildNormalizedMap_entries hmem
      have hpb : p.2 = B := huniq p.2 hin (by rw [hnorm, hpred, heq])
      show (true, p.2) = (true, B)
      rw [hpb]
  · intro hnone
    unfold classifyRedirect
    cases hf : (buildNormalizedMap urls base).find?
        (fun p => p.1 = normalizeUrl redirect A) with
    | none => rfl
    | some p =>
      have hpred := List.find?_some hf
      simp only [decide_eq_true_eq] at hpred
      have hmem := List.mem_of_find?_eq_some hf
      obtain ⟨hin, hnorm⟩ := buildNormalizedMap_entries hmem
      exact absurd (by rw [hnorm, hpred]) (hnone p.2 hin)

/-- C2 witness: in the inventory `{A, B}` on one site, `A` redirecting to
the relative path of `B` is redundant with target `B`, while `A`
redirecting to an external URL is not redundant. -/
theorem claim_C2_redundancy_witness :
    classifyRedirect
        (buildNormalizedMap ["https://site.com/a", "https://site.com/b"]
          "https://site.com/sitemap.xml")
        "https://site.com/a" "/b" = (true, "https://site.com/b") ∧
    classifyRedirect
        (buildNormalizedMap ["https://site.com/a", "https://site.com/c"]
          "https://site.com/sitemap.xml")
        "https://site.com/a" "https://external.org/x" = (false, "") :=
  ⟨(claim_C2_redundancy ["https://site.com/a", "https://site.com/b"]
      "https://site.com/sitemap.xml" "https://site.com/a" "https://site.com/b" "/b").1
      (by decide) (by decide) (by decide),
   (claim_C2_redundancy ["https://site.com/a", "https://site.com/c"]
      "https://site.com/sitemap.xml" "https://site.com/a" "https://site.com/c"
      "https://external.org/x").2 (by decide)⟩

/-- The per-leaf counters of `processSitemap`: `successCount`,
`redirectCount`, `errorCount`, `redundantCount`. -/
structure Counters where
  success : Nat
  redirect : Nat
  error : Nat
  redundant : Nat
  deriving DecidableEq, Repr

/-- JavaScript truthiness of the `redirectUrl` field: absent (`undefined`)
and the empty string are falsy. -/
def redirectTruthy : Option String → Bool
  | none => false
  | some s => !(s = "")

/-- Whether the redundancy scan of the classification loop finds the
normalized redirect target in the normalized-URL map. -/
def redundantHit (nmap : List (String × String)) (r : ProbeResult) : Bool :=
  match r.redirectUrl with
  | some ru => (nmap.find? (fun p => p.1 = normalizeUrl ru r.url)).isSome
  | none => false

/-- One iteration of the result-classification loop of `processSitemap`
(`sitemap.js` and `soft404.js` alike): a 200 increments `successCount`, a
301/302 carrying a truthy `redirectUrl` increments `redirectCount` and —
when the normalized target is in the map — `redundantCount`, a 404
increments `errorCount`, and everything else (other statuses, 3xx without
a `Location`, network errors) also increments `errorCount`. -/
def classifyStep (nmap : List (String × String)) (c : Counters) (r : ProbeResult) : Counters :=
  if r.status = .code 200 then { c with success := c.success + 1 }
  else if (r.status = .code 301 || r.status = .code 302) && redirectTruthy r.redirectUrl then
    if redundantHit nmap r then
      { c with redirect := c.redirect + 1, redundant := c.redundant + 1 }
    else { c with redirect := c.redirect + 1 }
  else { c with error := c.error + 1 }

/-- The counters after classifying every probe result of one leaf scan. -/
def processResults (nmap : List (String × String)) (rs : List ProbeResult) : Counters :=
  rs.foldl (classifyStep nmap) ⟨0, 0, 0, 0⟩

theorem classifyStep_totals (nmap : List (String × String)) (c : Counters) (r : ProbeResult) :
    ((classifyStep nmap c r).success + (classifyStep nmap c r).redirect +
        (classifyStep nmap c r).error = c.success + c.redirect + c.error + 1) ∧
      ((classifyStep nmap c r).redundant ≤ (classifyStep nmap c r).redirect ∨
        ¬c.redundant ≤ c.redirect) := by
  unfold classifyStep
  by_cases h200 : r.status = .code 200
  · rw [if_pos h200]
    refine ⟨by simp; omega, ?_⟩
    by_cases hc : c.redundant ≤ c.redirect
    · exact Or.inl hc
    · exact Or.inr hc
  · rw [if_neg h200]
    by_cases h30 : ((r.status = .code 301 || r.status = .code 302) &&
        redirectTruthy r.redirectUrl) = true
    · rw [if_pos h30]
      by_cases hhit : redundantHit nmap r = true
      · rw [if_pos hhit]
        refine ⟨by simp; omega, ?_⟩
        by_cases hc : c.redundant ≤ c.redirect
        · exact Or.inl (by simp; omega)
        · exact Or.inr hc
      · rw [if_neg hhit]
        refine ⟨by simp; omega, ?_⟩
        by_cases hc : c.redundant ≤ c.redirect
        · exact Or.inl (by simp; omega)
        · exact Or.inr hc
    · rw [if_neg h30]
      refine ⟨by simp; omega, ?_⟩
      by_cases hc : c.redundant ≤ c.redirect
      · exact Or.inl hc
      · exact Or.inr hc

theorem processResults_fold_inv (nmap : List (String × String)) (rs : List ProbeResult) :
    ∀ c : Counters,
      ((rs.foldl (classifyStep nmap) c).success + (rs.foldl (classifyStep nmap) c).redirect +
        (rs.foldl (classifyStep nmap) c).error = c.success + c.redirect + c.error + rs.length) ∧
      (c.redundant ≤ c.redirect →
        (rs.foldl (classifyStep nmap) c).redundant ≤ (rs.foldl (classifyStep nmap) c).redirect) := by
  induction rs with
  | nil =>
    intro c
    simp
  | cons r rs ih =>
    intro c
    simp only [List.foldl_cons, List.length_cons]
    obtain ⟨hsum, hred⟩ := ih (classifyStep nmap c r)
    obtain ⟨hstep, hstepred⟩ := classifyStep_totals nmap c r
    refine ⟨by omega, fun hc => ?_⟩
    rcases hstepred with h | h
    · exact hred h
    · exact absurd hc h

/-- C10: over any leaf scan, every probe result increments exactly one of
the success, redirect and error counters — their sum equals the number of
results — and the redundant counter, incremented only inside the redirect
branch, never exceeds the redirect counter. -/
theorem claim_C10_counter_invariant (nmap : List (String × String)) (rs : List ProbeResult) :
    (processResults nmap rs).success + (processResults nmap rs).redirect +
        (processResults nmap rs).error = rs.length ∧
      (processResults nmap rs).redundant ≤ (processResults nmap rs).redirect := by
  obtain ⟨hsum, hred⟩ := processResults_fold_inv nmap rs ⟨0, 0, 0, 0⟩
  exact ⟨by simpa using hsum, hred (Nat.le_refl 0)⟩

/-- Iteration order of a JavaScript `Set` built from a list: first
occurrences, in order, each kept once (`Array.from(new Set(urls))`). -/
def dedupAux : List String → List String → List String
  | [], _ => []
  | u :: rest, seen =>
    if u ∈ seen then dedupAux rest seen else u :: dedupAux rest (u :: seen)

/-- The de-duplicated URL list of a leaf sitemap,
`Array.from(new Set(sitemapData.urls))`. -/
def jsSetDedup (l : List String) : List String :=
  dedupAux l []

/-- The duplicate entries found by `detectAndWriteDuplicates`: the
occurrence count of every distinct URL of the raw list (keys in
first-occurrence order, as JavaScript object insertion order gives), kept
when it exceeds one. -/
def detectDuplicates (urls : List String) : List (String × Nat) :=
  (jsSetDedup urls).filterMap (fun u =>
    let c := urls.count u
    if c > 1 then some (u, c) else none)

/-- The `detectAndWriteDuplicates(urls, sitemapUrl)` of `soft404.js`,
reduced to its data: `none` models the early return that writes no
duplicate file, `some` the rows written to the duplicates CSV. -/
def detectAndWriteDuplicates (urls : List String) : Option (List (String × Nat)) :=
  if detectDuplicates urls = [] then none else some (detectDuplicates urls)

theorem dedupAux_mem (l : List String) :
    ∀ (seen : List String) (u : String), u ∈ dedupAux l seen ↔ u ∈ l ∧ u ∉ seen := by
  induction l with
  | nil =>
    intro seen u
    simp [dedupAux]
  | cons a l ih =>
    intro seen u
    unfold dedupAux
    by_cases ha : a ∈ seen
    · rw [if_pos ha, ih]
      constructor
      · rintro ⟨h1, h2⟩
        exact ⟨List.mem_cons_of_mem a h1, h2⟩
      · rintro ⟨h1, h2⟩
        rcases List.mem_cons.mp h1 with rfl | h1
        · exact absurd ha h2
        · exact ⟨h1, h2⟩
    · rw [if_neg ha]
      constructor
      · intro h
        rcases List.mem_cons.mp h with rfl | h
        · exact ⟨List.mem_cons_self u l, ha⟩
        · obtain ⟨h1, h2⟩ := (ih (a :: seen) u).mp h
          exact ⟨List.mem_cons_of_mem a h1, fun hc => h2 (List.mem_cons_of_mem a hc)⟩
      · rintro ⟨h1, h2⟩
        rcases List.mem_cons.mp h1 with rfl | h1
        · exact List.mem_cons_self u _
        · by_cases hua : u = a
          · subst hua
            exact List.mem_cons_self u _
          · refine List.mem_cons_of_mem a ((ih (a :: seen) u).mpr ⟨h1, ?_⟩)
            intro hc
            rcases List.mem_cons.mp hc with h' | h'
            · exact hua h'
            · exact h2 h'

theorem dedupAux_nodup (l : List String) : ∀ seen : List String, (dedupAux l seen).Nodup := by
  induction l with
  | nil =>
    intro seen
    simp [dedupAux]
  | cons a l ih =>
    intro seen
    unfold dedupAux
    by_cases ha : a ∈ seen
    · rw [if_pos ha]
      exact ih seen
    · rw [if_neg ha]
      refine List.nodup_cons.mpr ⟨?_, ih (a :: seen)⟩
      intro hc
      exact ((dedupAux_mem l (a :: seen) a).mp hc).2 (List.mem_cons_self a seen)

theorem jsSetDedup_mem (l : List String) (u : String) : u ∈ jsSetDedup l ↔ u ∈ l := by
  unfold jsSetDedup
  rw [dedupAux_mem]
  simp

theorem jsSetDedup_nodup (l : List String) : (jsSetDedup l).Nodup :=
  dedupAux_nodup l []

theorem detectDuplicates_mem (urls : List String) (u : String) (c : Nat) :
    (u, c) ∈ detectDuplicates urls ↔ urls.count u = c ∧ 2 ≤ c := by
  unfold detectDuplicates
  constructor
  · intro h
    obtain ⟨a, _, hfa⟩ := List.mem_filterMap.mp h
    simp only at hfa
    by_cases hc : urls.count a > 1
    · rw [if_pos hc] at hfa
      obtain ⟨rfl, rfl⟩ := Prod.mk.injEq .. ▸ Option.some.inj hfa
      exact ⟨rfl, hc⟩
    · rw [if_neg hc] at hfa
      cases hfa
  · rintro ⟨hcount, hc2⟩
    have humem : u ∈ urls := by
      rw [← List.count_pos_iff]
      omega
    refine List.mem_filterMap.mpr ⟨u, (jsSetDedup_mem urls u).mpr humem, ?_⟩
    simp only
    rw [if_pos (by omega), hcount]

/-- C9: the leaf URL list is collapsed into a duplicate-free list that
keeps exactly the URLs of the raw list; separately, the raw list is
scanned so that a URL appears in the duplicate report exactly when it
occurs more than once, paired with its exact occurrence count; and a
raw list with no repeated URL produces no duplicate report at all. -/
theorem claim_C9_dedup_and_duplicates (urls : List String) :
    (jsSetDedup urls).Nodup ∧
    (∀ u, u ∈ jsSetDedup urls ↔ u ∈ urls) ∧
    (∀ u c, (u, c) ∈ detectDuplicates urls ↔ urls.count u = c ∧ 2 ≤ c) ∧
    ((∀ u ∈ urls, urls.count u ≤ 1) → detectAndWriteDuplicates urls = none) := by
  refine ⟨jsSetDedup_nodup urls, jsSetDedup_mem urls, detectDuplicates_mem urls, ?_⟩
  intro hnodup
  have hnil : detectDuplicates urls = [] := by
    rw [List.eq_nil_iff_forall_not_mem]
    rintro ⟨u, c⟩ hc
    obtain ⟨hcount, hc2⟩ := (detectDuplicates_mem urls u c).mp hc
    have humem : u ∈ urls := by
      rw [← List.count_pos_iff]
      omega
    have := hnodup u humem
    omega
  unfold detectAndWriteDuplicates
  rw [if_pos hnil]

/-- C9 witness: the theorem applied to a list with one repeated URL and
to a repeat-free list. -/
theorem claim_C9_dedup_and_duplicates_witness :
    ("https://s.com/a", 2) ∈ detectDuplicates
        ["https://s.com/a", "https://s.com/b", "https://s.com/a"] ∧
    detectAndWriteDuplicates ["https://s.com/x", "https://s.com/y"] = none :=
  ⟨((claim_C9_dedup_and_duplicates
        ["https://s.com/a", "https://s.com/b", "https://s.com/a"]).2.2.1
      "https://s.com/a" 2).mpr (by decide),
   (claim_C9_dedup_and_duplicates ["https://s.com/x", "https://s.com/y"]).2.2.2
      (by decide)⟩

/-- State of `runWithConcurrency`: the shared index cursor, the
index-addressed result array (`none` marks an empty slot), and one slot
per worker holding the task index it is currently awaiting (`none` when
the worker is between tasks or finished). -/
structure SchedState (α : Type) where
  nextIndex : Nat
  results : Nat → Option α
  workers : List (Option Nat)

/-- An observable scheduler event: worker `w` pulls the next task index
from the cursor (`const current = index++`), or worker `w`'s awaited task
settles and its result is written to the task's slot
(`results[current] = await tasks[current]()`). -/
inductive SchedAction where
  | pull (w : Nat)
  | complete (w : Nat)
  deriving DecidableEq, Repr

/-- One interleaving step of `runWithConcurrency` over `n` tasks whose
`i`-th task evaluates to `f i`: a `pull` is enabled for an idle worker
while the cursor is below `n` (the worker-loop guard `index <
tasks.length`); a `complete` is enabled for a busy worker and writes
exactly the slot whose index that worker pulled.  `none` marks a step
that cannot occur. -/
def schedStep {α : Type} (f : Nat → α) (n : Nat) (s : SchedState α) :
    SchedAction → Option (SchedState α)
  | .pull w =>
    match s.workers[w]? with
    | some none =>
      if s.nextIndex < n then
        some ⟨s.nextIndex + 1, s.results, s.workers.set w (some s.nextIndex)⟩
      else none
    | _ => none
  | .complete w =>
    match s.workers[w]? with
    | some (some i) =>
      some ⟨s.nextIndex, fun j => if j = i then some (f i) else s.results j,
        s.workers.set w none⟩
    | _ => none

/-- Run a sequence of scheduler events from a state; `none` when some
event is not enabled where it occurs. -/
def schedRun {α : Type} (f : Nat → α) (n : Nat) : SchedState α → List SchedAction → Option (SchedState α)
  | s, [] => some s
  | s, a :: rest =>
    match schedStep f n s a with
    | some s' => schedRun f n s' rest
    | none => none

/-- The initial state of `runWithConcurrency(tasks, limit)`: cursor at
zero, all slots empty, and `Math.min(limit, tasks.length)` idle
workers. -/
def initSched (α : Type) (limit n : Nat) : SchedState α :=
  ⟨0, fun _ => none, List.replicate (min limit n) none⟩

/-- The scheduler invariant: the cursor never passes `n`; no slot at or
beyond the cursor is filled or claimed by a worker; and every slot below
the cursor is already filled with its own task's value or claimed by
some worker. -/
def SchedInv {α : Type} (f : Nat → α) (n : Nat) (s : SchedState α) : Prop :=
  s.nextIndex ≤ n ∧
  (∀ i, s.nextIndex ≤ i → s.results i = none ∧ ∀ w : Nat, ¬s.workers[w]? = some (some i)) ∧
  (∀ i, i < s.nextIndex → s.results i = some (f i) ∨ ∃ w : Nat, s.workers[w]? = some (some i))

theorem schedInv_init {α : Type} (f : Nat → α) (n limit : Nat) :
    SchedInv f n (initSched α limit n) := by
  refine ⟨Nat.zero_le n, fun i _ => ⟨rfl, fun w => ?_⟩, fun i hi => absurd hi (Nat.not_lt_zero i)⟩
  show ¬(List.replicate (min limit n) (none : Option Nat))[w]? = some (some i)
  rw [List.getElem?_replicate]
  split <;> simp

theorem schedInv_step {α : Type} (f : Nat → α) (n : Nat) (s t : SchedState α) (a : SchedAction)
    (hstep : schedStep f n s a = some t) (hinv : SchedInv f n s) : SchedInv f n t := by
  obtain ⟨hle, hhigh, hlow⟩ := hinv
  cases a with
  | pull w =>
    simp only [schedStep] at hstep
    cases hw : s.workers[w]? with
    | none => rw [hw] at hstep; cases hstep
    | some o =>
      cases o with
      | some i => rw [hw] at hstep; cases hstep
      | none =>
        rw [hw] at hstep
        by_cases hn : s.nextIndex < n
        · simp only [if_pos hn] at hstep
          obtain ⟨hwlt, -⟩ := List.getElem?_eq_some.mp hw
          cases hstep
          refine ⟨?_, ?_, ?_⟩
          · show s.nextIndex + 1 ≤ n
            omega
          · intro i hi
            have hi' : s.nextIndex + 1 ≤ i := hi
            constructor
            · show s.results i = none
              exact (hhigh i (by omega)).1
            · intro w'
              show ¬(s.workers.set w (some s.nextIndex))[w']? = some (some i)
              by_cases hww : w' = w
              · subst hww
                rw [List.getElem?_set_self hwlt]
                intro hc
                have : s.nextIndex = i := by
                  simpa using hc
                omega
              · rw [List.getElem?_set_ne (fun he => hww he.symm)]
                exact (hhigh i (by omega)).2 w'
          · intro i hi
            have hi' : i < s.nextIndex + 1 := hi
            by_cases hii : i < s.nextIndex
            · rcases hlow i hii with h | ⟨w', hw'⟩
              · exact Or.inl h
              · right
                have hww : w' ≠ w := by
                  intro he
                  rw [he, hw] at hw'
                  cases hw'
                refine ⟨w', ?_⟩
                show (s.workers.set w (some s.nextIndex))[w']? = some (some i)
                rw [List.getElem?_set_ne (fun he => hww he.symm)]
                exact hw'
            · have hieq : i = s.nextIndex := by omega
              right
              refine ⟨w, ?_⟩
              show (s.workers.set w (some s.nextIndex))[w]? = some (some i)
              rw [List.getElem?_set_self hwlt, hieq]
        · simp only [if_neg hn] at hstep
          cases hstep
  | complete w =>
    simp only [schedStep] at hstep
    cases hw : s.workers[w]? with
    | none => rw [hw] at hstep; cases hstep
    | some o =>
      cases o with
      | none => rw [hw] at hstep; cases hstep
      | some i₀ =>
        rw [hw] at hstep
        obtain ⟨hwlt, -⟩ := List.getElem?_eq_some.mp hw
        have hi₀ : i₀ < s.nextIndex := by
          by_contra hc
          exact (hhigh i₀ (by omega)).2 w hw
        cases hstep
        refine ⟨hle, ?_, ?_⟩
        · intro i hi
          have hi' : s.nextIndex ≤ i := hi
          constructor
          · show (if i = i₀ then some (f i₀) else s.results i) = none
            rw [if_neg (by omega)]
            exact (hhigh i hi').1
          · intro w'
            show ¬(s.workers.set w none)[w']? = some (some i)
            by_cases hww : w' = w
            · subst hww
              rw [List.getElem?_set_self hwlt]
              intro hc
              cases hc
            · rw [List.getElem?_set_ne (fun he => hww he.symm)]
              exact (hhigh i hi').2 w'
        · intro i hi
          have hi' : i < s.nextIndex := hi
          by_cases hii : i = i₀
          · subst hii
            left
            show (if i = i then some (f i) else s.results i) = some (f i)
            rw [if_pos rfl]
          · rcases hlow i hi' with h | ⟨w', hw'⟩
            · left
              show (if i = i₀ then some (f i₀) else s.results i) = some (f i)
              rw [if_neg hii]
              exact h
            · have hww : w' ≠ w := by
                intro he
                rw [he, hw] at hw'
                have : i₀ = i := by
                  simpa using hw'
                exact hii this.symm
              right
              refine ⟨w', ?_⟩
              show (s.workers.set w none)[w']? = some (some i)
              rw [List.getElem?_set_ne (fun he => hww he.symm)]
              exact hw'

theorem schedInv_run {α : Type} (f : Nat → α) (n : Nat) (acts : List SchedAction) :
    ∀ s t : SchedState α, schedRun f n s acts = some t → SchedInv f n s → SchedInv f n t := by
  induction acts with
  | nil =>
    intro s t h hinv
    cases h
    exact hinv
  | cons a rest ih =>
    intro s t h hinv
    unfold schedRun at h
    cases hstep : schedStep f n s a with
    | none => rw [hstep] at h; cases h
    | some s' =>
      rw [hstep] at h
      exact ih s' t h (schedInv_step f n s s' a hstep hinv)

/-- C8: any complete run of `runWithConcurrency` — every event enabled,
all workers finished idle, cursor exhausted — fills slot `i` with the
value of task `i` for every `i` below `n`, in original input order
whatever the completion interleaving was, and leaves every slot from `n`
on empty. -/
theorem claim_C8_scheduler_order {α : Type} (f : Nat → α) (n limit : Nat)
    (acts : List SchedAction) (s : SchedState α) (hlimit : 1 ≤ limit)
    (hrun : schedRun f n (initSched α limit n) acts = some s)
    (hidle : ∀ o ∈ s.workers, o = none) (hdone : n ≤ s.nextIndex) :
    (∀ i, i < n → s.results i = some (f i)) ∧ ∀ i, n ≤ i → s.results i = none := by
  obtain ⟨hle, hhigh, hlow⟩ := schedInv_run f n acts _ s hrun (schedInv_init f n limit)
  constructor
  · intro i hi
    rcases hlow i (by omega) with h | ⟨w, hw⟩
    · exact h
    · have := hidle _ (List.getElem?_mem hw)
      cases this
  · intro i hi
    exact (hhigh i (by omega)).1

/-- The event sequence of a three-task run on two workers in which task 1
settles before task 0 and the second worker then picks up task 2. -/
def sampleActions : List SchedAction :=
  [.pull 0, .pull 1, .complete 1, .pull 1, .complete 0, .complete 1]

/-- C8 witness: the theorem applied to the three-task, two-worker run of
`sampleActions`, whose completion order is 1, 0, 2 yet whose result
slots come out in input order. -/
theorem claim_C8_scheduler_order_witness :
    ∃ s, schedRun (fun i => i * 10) 3 (initSched Nat 2 3) sampleActions = some s ∧
      ∀ i, i < 3 → s.results i = some (i * 10) := by
  refine ⟨_, rfl, fun i hi => ?_⟩
  exact (claim_C8_scheduler_order (fun i => i * 10) 3 2 sampleActions _ (by omega) rfl
    (by decide) (by decide)).1 i hi

end SitemapChecker
